import Mathlib

/-!
Shallow embedding, over exact real arithmetic, of the Osiris `train`
subprogram (`src/Osiris_train.cpp`, `src/data_IO.cpp`) and of the
log-space probability primitives of the numeric header
(`src/unnamed/part_000`).  A C++ `double` is modelled as `Option ℝ`:
`none` stands for IEEE NaN, the library's reserved zero-probability
sentinel, and `some x` for a finite value `x`; floating-point rounding
is abstracted to exact real arithmetic.
-/

/-- A C++ `double` as used by the log-space library: `none` models NaN
(the zero-probability sentinel), `some x` a finite real value. -/
abbrev Dbl := Option ℝ

/-- The `std::isnan` test on modelled doubles. -/
def isnan (x : Dbl) : Bool := x.isNone

/-- IEEE addition on modelled doubles: NaN propagates. -/
noncomputable def dblAdd : Dbl → Dbl → Dbl
  | some a, some b => some (a + b)
  | _, _ => none

/-- The exception classes thrown by the log-space numeric header
(`part_000`, lines 16–29): `NegativeLog` ("Negative value passed to
natural log function") and `DivideByZero`. -/
inductive NumErr
  | NegativeLog
  | DivideByZero
  deriving DecidableEq

/-- `eexp` (`part_000`, lines 38–47): map from log space back to linear
space; NaN maps to `0.0`, any other argument `x` to `exp x`.  The result
is never NaN, so it is returned as a bare real. -/
noncomputable def eexp : Dbl → ℝ
  | none => 0
  | some x => Real.exp x

/-- `eln` (`part_000`, lines 50–62): map from linear space to log space.
`0.0` maps to NaN (the zero sentinel), positive arguments to `log x`,
and every other argument — negatives, and also a NaN argument, for which
both `x == 0.0` and `x > 0.0` are false — raises `NegativeLog`. -/
noncomputable def eln : Dbl → Except NumErr Dbl
  | some x =>
    if x = 0 then .ok none
    else if x > 0 then .ok (some (Real.log x))
    else .error .NegativeLog
  | none => .error .NegativeLog

/-- `lnSum` (`part_000`, lines 65–91): log-space probability sum.  If
either argument is NaN the special-handling branch returns NaN (both
NaN), or the other argument (exactly one NaN); otherwise the branch on
`ln_x > ln_y` adds the larger argument to `eln (1.0 + eexp (smaller -
larger))`.  The call to `eln` is kept in the `Except` monad exactly as
the C++ call sits inside a potentially-throwing expression. -/
noncomputable def lnSum (ln_x ln_y : Dbl) : Except NumErr Dbl :=
  match ln_x, ln_y with
  | none, none => .ok none
  | none, some y => .ok (some y)
  | some x, none => .ok (some x)
  | some x, some y =>
    if x > y then
      (eln (some (1 + eexp (some (y - x))))).map (dblAdd (some x))
    else
      (eln (some (1 + eexp (some (x - y))))).map (dblAdd (some y))

/-- `lnProd` (`part_000`, lines 94–103): log-space probability product;
NaN if either argument is NaN, else the sum of the arguments. -/
noncomputable def lnProd (ln_x ln_y : Dbl) : Dbl :=
  match ln_x, ln_y with
  | some x, some y => some (x + y)
  | _, _ => none

/-- `lnGreaterThan` (`part_000`, lines 121–144), translated with C++
operator precedence applied: `==` binds tighter than `||`, so the first
inner test is `isnan(ln_x) || (isnan(ln_y) == false)` and the second is
`(isnan(ln_x) == false) || isnan(ln_y)`.  In the final branch both
operands are non-NaN and `>` compares their finite values (extracted by
`getD`). -/
noncomputable def lnGreaterThan (ln_x ln_y : Dbl) : Bool :=
  if isnan ln_x || isnan ln_y then
    if isnan ln_x || !(isnan ln_y) then false
    else if !(isnan ln_x) || isnan ln_y then true
    else false
  else
    if ln_x.getD 0 > ln_y.getD 0 then true else false

/-- Claim C2: `lnSum` returns the zero sentinel when both operands are
the sentinel, the other operand when exactly one is, and otherwise
`max a b + log (1 + exp (min a b - max a b))`, so the larger operand is
always the one subtracted inside the exponential. -/
theorem lnSum_sentinel_and_maxmin :
    lnSum none none = .ok none
    ∧ (∀ y : ℝ, lnSum none (some y) = .ok (some y))
    ∧ (∀ x : ℝ, lnSum (some x) none = .ok (some x))
    ∧ ∀ x y : ℝ, lnSum (some x) (some y) =
        .ok (some (max x y + Real.log (1 + Real.exp (min x y - max x y)))) := by
  refine ⟨rfl, fun y => rfl, fun x => rfl, fun x y => ?_⟩
  by_cases h : x > y
  · have h1 : (0:ℝ) < 1 + Real.exp (y - x) := by positivity
    simp only [lnSum, if_pos h, eexp, eln, if_neg h1.ne', if_pos h1, Except.map, dblAdd,
      max_eq_left h.le, min_eq_right h.le]
  · have h1 : (0:ℝ) < 1 + Real.exp (x - y) := by positivity
    have hle : x ≤ y := not_lt.mp h
    simp only [lnSum, if_neg h, eexp, eln, if_neg h1.ne', if_pos h1, Except.map, dblAdd,
      max_eq_right hle, min_eq_left hle]

/-- Claim C3: `eln` returns the zero sentinel at `0`, returns `log p` on
every positive argument, and raises `NegativeLog` on every negative
argument; in particular `eln 0` does not raise. -/
theorem eln_trichotomy (p : ℝ) :
    (p = 0 → eln (some p) = .ok none)
    ∧ (0 < p → eln (some p) = .ok (some (Real.log p)))
    ∧ (p < 0 → eln (some p) = .error .NegativeLog) := by
  refine ⟨fun h => by simp [eln, h], fun h => ?_, fun h => ?_⟩
  · simp [eln, h.ne', h]
  · simp [eln, h.ne, not_lt.mpr h.le]

/-- Witness for `eln_trichotomy` at the concrete inputs `0`, `1`, `-1`. -/
theorem eln_trichotomy_witness :
    eln (some 0) = .ok none
    ∧ eln (some 1) = .ok (some (Real.log 1))
    ∧ eln (some (-1)) = .error .NegativeLog :=
  ⟨(eln_trichotomy 0).1 rfl, (eln_trichotomy 1).2.1 one_pos,
    (eln_trichotomy (-1)).2.2 neg_one_lt_zero⟩

/-- Claim C4: `lnGreaterThan` realises the strict order in which the
zero sentinel is the unique minimum: it is `false` whenever the first
operand is the sentinel (covering the sentinel-vs-sentinel case),
`true` whenever the first operand is finite and the second is the
sentinel, and decides `a > b` when both operands are finite — all four
sentinel/non-sentinel combinations. -/
theorem lnGreaterThan_order :
    (∀ y : Dbl, lnGreaterThan none y = false)
    ∧ (∀ x : ℝ, lnGreaterThan (some x) none = true)
    ∧ ∀ x y : ℝ, lnGreaterThan (some x) (some y) = true ↔ x > y := by
  refine ⟨fun y => rfl, fun x => rfl, fun x y => ?_⟩
  by_cases h : x > y <;> simp [lnGreaterThan, isnan, h]

/-- Claim C5: the round trip `eln (eexp x)` is the identity on every
finite (non-sentinel) log-space value. -/
theorem eln_eexp_roundtrip : ∀ x : ℝ, eln (some (eexp (some x))) = .ok (some x) := by
  intro x
  have h : (0:ℝ) < Real.exp x := Real.exp_pos x
  simp [eexp, eln, h.ne', h, Real.log_exp]

/-!
Embedding of the per-read hidden state graph built by `train_main`
(`src/Osiris_train.cpp`, lines 159–245).  For a mapped reference
subsequence `refSeqMapped` of length `L` starting at reference offset
`first` (`ROIbounds.first`), the code creates, for each position
`i < L - 5`, six states named `<i+first>_SS`, `_D`, `_I`, `_M1`, `_M2`,
`_SE`, adds the internal transitions of the module, then the external
transitions between consecutive modules (`i < L - 6`), then the start
and end transitions.  State names are modelled structurally as a
reference position plus a role; the natural-number subtraction `L - 5`
is faithful to the C++ unsigned arithmetic for `L ≥ 5`.
-/

/-- The six per-position state roles of the grammar. -/
inductive StateKind
  | SS
  | D
  | I
  | M1
  | M2
  | SE
  deriving DecidableEq

/-- A state of the per-read graph: the distinguished `start` and `stop`
(`hmm.start` / `hmm.end`) states, or a per-position state whose name
`"<p>_<role>"` is modelled as the pair of its reference position `p`
and its role. -/
inductive HmmState
  | start
  | stop
  | pos (p : ℕ) (k : StateKind)
  deriving DecidableEq

/-- A weighted transition edge, as registered by `hmm.add_transition`. -/
structure Transition where
  src : HmmState
  dst : HmmState
  weight : ℝ

/-- The fixed transition-weight constants of `poreSpecificParameters.h`
(declared outside the sources; kept abstract). -/
structure Weights where
  internalSS2M1 : ℝ
  internalSS2M2 : ℝ
  internalD2I : ℝ
  internalI2I : ℝ
  internalI2SS : ℝ
  internalM12M1 : ℝ
  internalM12SE : ℝ
  internalM22M2 : ℝ
  internalM22SE : ℝ
  internalSE2I : ℝ
  externalD2D : ℝ
  externalD2SS : ℝ
  externalI2SS : ℝ
  externalSE2SS : ℝ
  externalSE2D : ℝ

/-- The six states added for module `i` (`Osiris_train.cpp`, lines
184–199): `loc = i + ROIbounds.first`. -/
def moduleStates (first i : ℕ) : List HmmState :=
  [ .pos (i + first) .SS, .pos (i + first) .D, .pos (i + first) .I,
    .pos (i + first) .M1, .pos (i + first) .M2, .pos (i + first) .SE ]

/-- All states added to the graph: six per module, for `i < L - 5`
(`Osiris_train.cpp`, lines 182–199). -/
def hmmStates (first L : ℕ) : List HmmState :=
  (List.range (L - 5)).flatMap (moduleStates first)

/-- The ten internal transitions of module `i` (`Osiris_train.cpp`,
lines 201–223), in registration order. -/
def internalTransitions (w : Weights) (first i : ℕ) : List Transition :=
  [ ⟨.pos (i + first) .SS, .pos (i + first) .M1, w.internalSS2M1⟩,
    ⟨.pos (i + first) .SS, .pos (i + first) .M2, w.internalSS2M2⟩,
    ⟨.pos (i + first) .D,  .pos (i + first) .I,  w.internalD2I⟩,
    ⟨.pos (i + first) .I,  .pos (i + first) .I,  w.internalI2I⟩,
    ⟨.pos (i + first) .I,  .pos (i + first) .SS, w.internalI2SS⟩,
    ⟨.pos (i + first) .M1, .pos (i + first) .M1, w.internalM12M1⟩,
    ⟨.pos (i + first) .M1, .pos (i + first) .SE, w.internalM12SE⟩,
    ⟨.pos (i + first) .M2, .pos (i + first) .M2, w.internalM22M2⟩,
    ⟨.pos (i + first) .M2, .pos (i + first) .SE, w.internalM22SE⟩,
    ⟨.pos (i + first) .SE, .pos (i + first) .I,  w.internalSE2I⟩ ]

/-- The five external transitions from module `i` to module `i + 1`
(`Osiris_train.cpp`, lines 227–234). -/
def externalTransitions (w : Weights) (first i : ℕ) : List Transition :=
  [ ⟨.pos (i + first) .D,  .pos (i + 1 + first) .D,  w.externalD2D⟩,
    ⟨.pos (i + first) .D,  .pos (i + 1 + first) .SS, w.externalD2SS⟩,
    ⟨.pos (i + first) .I,  .pos (i + 1 + first) .SS, w.externalI2SS⟩,
    ⟨.pos (i + first) .SE, .pos (i + 1 + first) .SS, w.externalSE2SS⟩,
    ⟨.pos (i + first) .SE, .pos (i + 1 + first) .D,  w.externalSE2D⟩ ]

/-- The two start transitions (`Osiris_train.cpp`, lines 237–238):
`hmm.start` connects to module 0's SS and D states, weight `0.5` each
(module 0's `loc` is `0 + first = first`). -/
def startTransitions (first : ℕ) : List Transition :=
  [ ⟨.start, .pos first .SS, 0.5⟩,
    ⟨.start, .pos first .D,  0.5⟩ ]

/-- The three end transitions (`Osiris_train.cpp`, lines 241–243): the
last module's (`i = L - 6`) D, I and SE states connect to `hmm.end`. -/
def endTransitions (w : Weights) (first L : ℕ) : List Transition :=
  [ ⟨.pos (L - 6 + first) .D,  .stop, w.externalD2D + w.externalD2SS⟩,
    ⟨.pos (L - 6 + first) .I,  .stop, w.externalI2SS⟩,
    ⟨.pos (L - 6 + first) .SE, .stop, w.externalSE2SS + w.externalSE2D⟩ ]

/-- All transitions registered on the per-read graph, in registration
order: internal transitions of every module, then external transitions,
then start, then end transitions. -/
def hmmTransitions (w : Weights) (first L : ℕ) : List Transition :=
  (List.range (L - 5)).flatMap (internalTransitions w first)
    ++ ((List.range (L - 6)).flatMap (externalTransitions w first)
      ++ (startTransitions first ++ endTransitions w first L))

theorem internal_shape {w : Weights} {first i : ℕ} {t : Transition}
    (h : t ∈ internalTransitions w first i) :
    ∃ k k', t.src = HmmState.pos (i + first) k ∧ t.dst = HmmState.pos (i + first) k' := by
  simp only [internalTransitions, List.mem_cons, List.not_mem_nil, or_false] at h
  rcases h with rfl|rfl|rfl|rfl|rfl|rfl|rfl|rfl|rfl|rfl <;> exact ⟨_, _, rfl, rfl⟩

theorem external_shape {w : Weights} {first i : ℕ} {t : Transition}
    (h : t ∈ externalTransitions w first i) :
    ∃ k k', t.src = HmmState.pos (i + first) k ∧ t.dst = HmmState.pos (i + 1 + first) k' := by
  simp only [externalTransitions, List.mem_cons, List.not_mem_nil, or_false] at h
  rcases h with rfl|rfl|rfl|rfl|rfl <;> exact ⟨_, _, rfl, rfl⟩

theorem start_shape {first : ℕ} {t : Transition} (h : t ∈ startTransitions first) :
    t.src = HmmState.start ∧ ∃ k, t.dst = HmmState.pos first k := by
  simp only [startTransitions, List.mem_cons, List.not_mem_nil, or_false] at h
  rcases h with rfl|rfl <;> exact ⟨rfl, _, rfl⟩

theorem end_shape {w : Weights} {first L : ℕ} {t : Transition}
    (h : t ∈ endTransitions w first L) :
    (∃ k, t.src = HmmState.pos (L - 6 + first) k) ∧ t.dst = HmmState.stop := by
  simp only [endTransitions, List.mem_cons, List.not_mem_nil, or_false] at h
  rcases h with rfl|rfl|rfl <;> exact ⟨⟨_, rfl⟩, rfl⟩

/-- Claim C1: for a mapped reference subsequence of length `L > 6`, the
constructed state graph contains exactly the six states SS, D, I, M1,
M2, SE for each position `i < L - 5` (each exactly once), and exactly
these transitions, each exactly once: the ten internal transitions at
each position, the five external transitions from each position to the
next (`i < L - 6`), the global start state to the first module's SS and
D states with weight `0.5` each, and the last module's D, I, SE states
to the global end state with weights `externalD2D + externalD2SS`,
`externalI2SS`, `externalSE2SS + externalSE2D`. -/
theorem hmm_graph_structure (w : Weights) (first L : ℕ) (_h6 : 6 < L) :
    (hmmStates first L).Nodup
    ∧ (∀ s, s ∈ hmmStates first L ↔ ∃ i, i < L - 5 ∧
        (s = .pos (i + first) .SS ∨ s = .pos (i + first) .D ∨ s = .pos (i + first) .I ∨
         s = .pos (i + first) .M1 ∨ s = .pos (i + first) .M2 ∨ s = .pos (i + first) .SE))
    ∧ (hmmTransitions w first L).Nodup
    ∧ ∀ t, t ∈ hmmTransitions w first L ↔
      ((∃ i, i < L - 5 ∧
         (t = ⟨.pos (i + first) .SS, .pos (i + first) .M1, w.internalSS2M1⟩ ∨
          t = ⟨.pos (i + first) .SS, .pos (i + first) .M2, w.internalSS2M2⟩ ∨
          t = ⟨.pos (i + first) .D,  .pos (i + first) .I,  w.internalD2I⟩ ∨
          t = ⟨.pos (i + first) .I,  .pos (i + first) .I,  w.internalI2I⟩ ∨
          t = ⟨.pos (i + first) .I,  .pos (i + first) .SS, w.internalI2SS⟩ ∨
          t = ⟨.pos (i + first) .M1, .pos (i + first) .M1, w.internalM12M1⟩ ∨
          t = ⟨.pos (i + first) .M1, .pos (i + first) .SE, w.internalM12SE⟩ ∨
          t = ⟨.pos (i + first) .M2, .pos (i + first) .M2, w.internalM22M2⟩ ∨
          t = ⟨.pos (i + first) .M2, .pos (i + first) .SE, w.internalM22SE⟩ ∨
          t = ⟨.pos (i + first) .SE, .pos (i + first) .I,  w.internalSE2I⟩))
       ∨ (∃ i, i < L - 6 ∧
         (t = ⟨.pos (i + first) .D,  .pos (i + 1 + first) .D,  w.externalD2D⟩ ∨
          t = ⟨.pos (i + first) .D,  .pos (i + 1 + first) .SS, w.externalD2SS⟩ ∨
          t = ⟨.pos (i + first) .I,  .pos (i + 1 + first) .SS, w.externalI2SS⟩ ∨
          t = ⟨.pos (i + first) .SE, .pos (i + 1 + first) .SS, w.externalSE2SS⟩ ∨
          t = ⟨.pos (i + first) .SE, .pos (i + 1 + first) .D,  w.externalSE2D⟩))
       ∨ t = ⟨.start, .pos first .SS, 0.5⟩
       ∨ t = ⟨.start, .pos first .D, 0.5⟩
       ∨ t = ⟨.pos (L - 6 + first) .D,  .stop, w.externalD2D + w.externalD2SS⟩
       ∨ t = ⟨.pos (L - 6 + first) .I,  .stop, w.externalI2SS⟩
       ∨ t = ⟨.pos (L - 6 + first) .SE, .stop, w.externalSE2SS + w.externalSE2D⟩) := by
  refine ⟨?_, fun s => ?_, ?_, fun t => ?_⟩
  · rw [hmmStates, List.nodup_flatMap]
    refine ⟨fun i _ => by simp [moduleStates], ?_⟩
    refine (List.pairwise_lt_range _).imp ?_
    intro a b hab x hxa hxb
    simp only [moduleStates, List.mem_cons, List.not_mem_nil, or_false] at hxa hxb
    rcases hxa with rfl|rfl|rfl|rfl|rfl|rfl <;>
      simp only [HmmState.pos.injEq, and_true, and_false, or_false, false_or] at hxb <;>
      omega
  · simp only [hmmStates, List.mem_flatMap, List.mem_range, moduleStates, List.mem_cons,
      List.not_mem_nil, or_false]
  · rw [hmmTransitions]
    rw [List.nodup_append, List.nodup_append, List.nodup_append]
    refine ⟨?_, ⟨?_, ⟨?_, ?_, ?_⟩, ?_⟩, ?_⟩
    · rw [List.nodup_flatMap]
      refine ⟨fun i _ => by simp [internalTransitions, Transition.mk.injEq], ?_⟩
      refine (List.pairwise_lt_range _).imp ?_
      intro a b hab t hta htb
      obtain ⟨k1, k2, hs1, hd1⟩ := internal_shape hta
      obtain ⟨k3, k4, hs2, hd2⟩ := internal_shape htb
      rw [hs1] at hs2
      simp only [HmmState.pos.injEq] at hs2
      omega
    · rw [List.nodup_flatMap]
      refine ⟨fun i _ => by simp [externalTransitions, Transition.mk.injEq], ?_⟩
      refine (List.pairwise_lt_range _).imp ?_
      intro a b hab t hta htb
      obtain ⟨k1, k2, hs1, hd1⟩ := external_shape hta
      obtain ⟨k3, k4, hs2, hd2⟩ := external_shape htb
      rw [hs1] at hs2
      simp only [HmmState.pos.injEq] at hs2
      omega
    · simp [startTransitions, Transition.mk.injEq]
    · simp [endTransitions, Transition.mk.injEq]
    · intro t hts hte
      obtain ⟨hs, _⟩ := start_shape hts
      obtain ⟨⟨k, hs'⟩, _⟩ := end_shape hte
      rw [hs] at hs'
      exact absurd hs' (by simp)
    · intro t hte htse
      obtain ⟨i, _, hti⟩ := List.mem_flatMap.mp hte
      obtain ⟨k1, k2, hs1, hd1⟩ := external_shape hti
      rcases List.mem_append.mp htse with h | h
      · obtain ⟨hs2, _⟩ := start_shape h
        rw [hs1] at hs2
        exact absurd hs2 (by simp)
      · obtain ⟨_, hd2⟩ := end_shape h
        rw [hd1] at hd2
        exact absurd hd2 (by simp)
    · intro t hti hrest
      obtain ⟨i, _, hti'⟩ := List.mem_flatMap.mp hti
      obtain ⟨k1, k2, hs1, hd1⟩ := internal_shape hti'
      rcases List.mem_append.mp hrest with h | h
      · obtain ⟨j, _, htj⟩ := List.mem_flatMap.mp h
        obtain ⟨k3, k4, hs2, hd2⟩ := external_shape htj
        rw [hs1] at hs2
        rw [hd1] at hd2
        simp only [HmmState.pos.injEq] at hs2 hd2
        omega
      · rcases List.mem_append.mp h with h' | h'
        · obtain ⟨hs2, _⟩ := start_shape h'
          rw [hs1] at hs2
          exact absurd hs2 (by simp)
        · obtain ⟨_, hd2⟩ := end_shape h'
          rw [hd1] at hd2
          exact absurd hd2 (by simp)
  · simp only [hmmTransitions, List.mem_append, List.mem_flatMap, List.mem_range,
      internalTransitions, externalTransitions, startTransitions, endTransitions,
      List.mem_cons, List.not_mem_nil, or_false, or_assoc]

/-- A fixed assignment of the transition-weight constants, used to
instantiate the graph-structure theorem concretely. -/
def sampleWeights : Weights :=
  ⟨0, 0, 0, 0, 0, 0, 0, 0, 0, 0, 0, 0, 0, 0, 0⟩

/-- Witness for `hmm_graph_structure` at `first = 0`, `L = 8`: the start
transition to the first module's SS state is in the graph. -/
theorem hmm_graph_structure_witness :
    Transition.mk HmmState.start (HmmState.pos 0 StateKind.SS) 0.5
      ∈ hmmTransitions sampleWeights 0 8 :=
  ((hmm_graph_structure sampleWeights 0 8 (by decide)).2.2.2 _).mpr
    (Or.inr (Or.inr (Or.inl rfl)))

/-!
Embedding of the per-read alignment loop of `train_main`
(`src/Osiris_train.cpp`, lines 127–274): quality filtering, Viterbi
path filtering to emitting states, and event pooling into
`eventPileup`.
-/

/-- The event pool `eventPileup`
(`std::map< int, std::vector< double > >`): reference position to the
ordered collection of pooled normalised events; absent keys are modelled
by the empty list. -/
abbrev Pileup := ℕ → List ℝ

/-- The pool before any read is processed. -/
def emptyPileup : Pileup := fun _ => []

/-- `eventPileup[posOnReference].push_back(e)` (`Osiris_train.cpp`,
line 269). -/
def push_back (pu : Pileup) (p : ℕ) (e : ℝ) : Pileup :=
  fun q => if q = p then pu q ++ [e] else pu q

/-- The emitting-state filter (`Osiris_train.cpp`, lines 253–259): a
state is kept when the first character of its name after the `_` is
`"M"` or `"I"`, i.e. exactly the M1, M2 and I states.  The decoder's
`start`/`end` states are not tagged M or I (spec §4.4) and are
dropped. -/
def isEmitting : HmmState → Bool
  | .pos _ .I => true
  | .pos _ .M1 => true
  | .pos _ .M2 => true
  | _ => false

/-- The reference position parsed back out of a state name
(`atoi(split( name, '_' )[0])`, `Osiris_train.cpp`, lines 265–266): for
a per-position state the leading `"<p>"` of its name. -/
def statePos : HmmState → ℕ
  | .pos p _ => p
  | _ => 0

/-- The pooling loop body (`Osiris_train.cpp`, lines 262–271) iterated
over a list of observation indices: for each index `i` the code reads
`emittingStatePath[i]` — modelled as a checked lookup yielding `none`
where the C++ indexing would run out of bounds — parses the reference
position from the state's name, and pools the `i`-th normalised event
at that position when `boundLower ≤ pos` and `pos < boundUpper`. -/
def poolEventsAux (boundLower boundUpper : ℕ) (path : List HmmState)
    (events : List ℝ) : Pileup → List ℕ → Option Pileup
  | pu, [] => some pu
  | pu, i :: rest =>
    match path[i]? with
    | none => none
    | some s =>
      let posOnReference := statePos s
      if boundLower ≤ posOnReference ∧ posOnReference < boundUpper then
        poolEventsAux boundLower boundUpper path events
          (push_back pu posOnReference (events.getD i 0)) rest
      else
        poolEventsAux boundLower boundUpper path events pu rest

/-- The full pooling loop: `for i in [0, events.length)`. -/
def poolEvents (boundLower boundUpper : ℕ) (path : List HmmState)
    (events : List ℝ) (pu : Pileup) : Option Pileup :=
  poolEventsAux boundLower boundUpper path events pu (List.range events.length)

theorem poolEventsAux_isSome_iff (lo hi : ℕ) (path : List HmmState) (events : List ℝ)
    (l : List ℕ) : ∀ pu : Pileup,
    (poolEventsAux lo hi path events pu l).isSome = true ↔ ∀ i ∈ l, i < path.length := by
  induction l with
  | nil => intro pu; simp [poolEventsAux]
  | cons i rest ih =>
    intro pu
    cases h : path[i]? with
    | none =>
      have hlen : path.length ≤ i := List.getElem?_eq_none_iff.mp h
      simp only [poolEventsAux, h, Option.isSome_none, Bool.false_eq_true, false_iff]
      intro hall
      exact absurd (hall i (List.mem_cons_self i rest)) (by omega)
    | some s =>
      have hlen : i < path.length := (List.getElem?_eq_some_iff.mp h).choose
      have hiff : (∀ j ∈ rest, j < path.length) ↔ ∀ j ∈ i :: rest, j < path.length := by
        constructor
        · intro hall j hj
          rcases List.mem_cons.mp hj with rfl | hj'
          · exact hlen
          · exact hall j hj'
        · intro hall j hj
          exact hall j (List.mem_cons_of_mem i hj)
      simp only [poolEventsAux, h]
      by_cases hb : lo ≤ statePos s ∧ statePos s < hi
      · rw [if_pos hb, ih]
        exact hiff
      · rw [if_neg hb, ih]
        exact hiff

theorem poolEvents_isSome_iff (lo hi : ℕ) (path : List HmmState) (events : List ℝ)
    (pu : Pileup) :
    (poolEvents lo hi path events pu).isSome = true ↔ events.length ≤ path.length := by
  rw [poolEvents, poolEventsAux_isSome_iff]
  simp only [List.mem_range]
  constructor
  · intro h
    by_cases hn : events.length = 0
    · omega
    · have := h (events.length - 1) (by omega)
      omega
  · intro h i hi
    omega

theorem poolEventsAux_preserves (lo hi : ℕ) (path : List HmmState) (events : List ℝ)
    (l : List ℕ) : ∀ pu pu' : Pileup,
    poolEventsAux lo hi path events pu l = some pu' →
    ∀ p, ¬(lo ≤ p ∧ p < hi) → pu' p = pu p := by
  induction l with
  | nil =>
    intro pu pu' h p hp
    rw [poolEventsAux] at h
    cases h
    rfl
  | cons i rest ih =>
    intro pu pu' h p hp
    cases hpath : path[i]? with
    | none =>
      simp only [poolEventsAux, hpath] at h
      cases h
    | some s =>
      simp only [poolEventsAux, hpath] at h
      by_cases hb : lo ≤ statePos s ∧ statePos s < hi
      · rw [if_pos hb] at h
        have := ih _ _ h p hp
        rw [this, push_back]
        have hne : p ≠ statePos s := fun he => hp (he ▸ hb)
        simp [hne]
      · rw [if_neg hb] at h
        exact ih _ _ h p hp

/-- The result handed back by the excluded `normaliseEvents`
collaborator (`eventDataForRead`): a quality score and the
shift/scale-corrected event sequence. -/
structure EventDataForRead where
  qualityScore : ℝ
  normalisedEvents : List ℝ

/-- One training read from the `.foh` file (`read currentRead`): the
basecall line, the region-of-interest bounds, and the raw signal. -/
structure TrainingRead where
  basecalls : String
  roiFirst : ℕ
  roiSecond : ℕ
  raw : List ℝ

/-- What one iteration of the per-read loop produces, instrumented so
the discard behaviour is observable: the states and transitions added
to the per-read graph (empty if the read was discarded), the Viterbi
path if decoding ran at all, and the event pool after the iteration
(`none` where the pooling would index the emitting path out of
bounds). -/
structure ReadOutcome where
  builtStates : List HmmState
  builtTransitions : List Transition
  viterbiPath : Option (List HmmState)
  pileup : Option Pileup

/-- One iteration of the per-read training loop (`Osiris_train.cpp`,
lines 127–274): normalise the read, `continue` without doing anything
further if `fabs(qualityScore) > 1.0`, otherwise build the state graph
over `refSeqMapped = reference.substr(first, second - first)` (whose
length is `min (second - first) (refLen - first)`), decode with
Viterbi, filter the path to emitting states, and pool the aligned
events.  The external collaborators `normaliseEvents` (signal
normalisation) and `viterbi` (the Penthus decoder, returning the
log-probability/state-path pair) are parameters. -/
noncomputable def processRead (w : Weights)
    (normaliseEvents : TrainingRead → EventDataForRead)
    (viterbi : List HmmState → List Transition → List ℝ → ℝ × List HmmState)
    (boundLower boundUpper refLen : ℕ) (pu : Pileup)
    (currentRead : TrainingRead) : ReadOutcome :=
  let eventData := normaliseEvents currentRead
  if 1 < |eventData.qualityScore| then
    ⟨[], [], none, some pu⟩
  else
    let L := min (currentRead.roiSecond - currentRead.roiFirst)
      (refLen - currentRead.roiFirst)
    let sts := hmmStates currentRead.roiFirst L
    let trs := hmmTransitions w currentRead.roiFirst L
    let statePath := (viterbi sts trs eventData.normalisedEvents).2
    let emittingStatePath := statePath.filter isEmitting
    ⟨sts, trs, some statePath,
      poolEvents boundLower boundUpper emittingStatePath
        eventData.normalisedEvents pu⟩

/-- Claim C8: a read whose normalised quality score has magnitude
strictly greater than `1.0` is discarded before anything is built for
it: no states or transitions are created, Viterbi never runs, and the
event pool is unchanged. -/
theorem quality_filter_discards (w : Weights)
    (normaliseEvents : TrainingRead → EventDataForRead)
    (viterbi : List HmmState → List Transition → List ℝ → ℝ × List HmmState)
    (lo hi refLen : ℕ) (pu : Pileup) (r : TrainingRead)
    (h : 1 < |(normaliseEvents r).qualityScore|) :
    processRead w normaliseEvents viterbi lo hi refLen pu r =
      ⟨[], [], none, some pu⟩ := by
  simp only [processRead]
  rw [if_pos h]

/-- Witness for `quality_filter_discards`: a read normalised to quality
score `2` is discarded. -/
theorem quality_filter_discards_witness :
    processRead sampleWeights (fun _ => ⟨2, []⟩) (fun _ _ _ => (0, []))
      0 10 20 emptyPileup ⟨"", 0, 0, []⟩ =
      ⟨[], [], none, some emptyPileup⟩ :=
  quality_filter_discards sampleWeights (fun _ => ⟨2, []⟩) (fun _ _ _ => (0, []))
    0 10 20 emptyPileup ⟨"", 0, 0, []⟩
    (lt_of_lt_of_le one_lt_two (le_abs_self 2))

/-- Claim C9: for a read that passes the quality filter, the pooling
loop reads `emittingStatePath[i]` for every observation index
`i < events.length`, and all these accesses are in bounds exactly when
the filtered Viterbi path has at least as many emitting states as there
are observations — a precondition the code never checks. -/
theorem emitting_path_indexing_precondition (w : Weights)
    (normaliseEvents : TrainingRead → EventDataForRead)
    (viterbi : List HmmState → List Transition → List ℝ → ℝ × List HmmState)
    (lo hi refLen : ℕ) (pu : Pileup) (r : TrainingRead)
    (hq : ¬ 1 < |(normaliseEvents r).qualityScore|) :
    ((processRead w normaliseEvents viterbi lo hi refLen pu r).pileup).isSome = true ↔
      (normaliseEvents r).normalisedEvents.length ≤
        ((viterbi
            (hmmStates r.roiFirst
              (min (r.roiSecond - r.roiFirst) (refLen - r.roiFirst)))
            (hmmTransitions w r.roiFirst
              (min (r.roiSecond - r.roiFirst) (refLen - r.roiFirst)))
            (normaliseEvents r).normalisedEvents).2.filter isEmitting).length := by
  simp only [processRead]
  rw [if_neg hq]
  exact poolEvents_isSome_iff lo hi _ _ pu

/-- Witness for `emitting_path_indexing_precondition`: a read of one
observation whose decoded path has one emitting state pools
successfully. -/
theorem emitting_path_indexing_precondition_witness :
    ((processRead sampleWeights (fun _ => ⟨0, [4]⟩)
        (fun _ _ _ => (0, [HmmState.pos 0 StateKind.I]))
        0 10 20 emptyPileup ⟨"", 0, 7, []⟩).pileup).isSome = true :=
  (emitting_path_indexing_precondition sampleWeights (fun _ => ⟨0, [4]⟩)
      (fun _ _ _ => (0, [HmmState.pos 0 StateKind.I]))
      0 10 20 emptyPileup ⟨"", 0, 7, []⟩
      (by simp)).mpr (by decide)

/-- Claim C10: event pooling touches only keys inside
`[boundLower, boundUpper)`: any position outside the bounds keeps its
previous pool entry, and hence the invariant that every nonempty pool
key lies inside the bounds is preserved by the loop. -/
theorem pileup_keys_within_bounds (lo hi : ℕ) (path : List HmmState)
    (events : List ℝ) (pu pu' : Pileup)
    (h : poolEvents lo hi path events pu = some pu') :
    (∀ p, ¬(lo ≤ p ∧ p < hi) → pu' p = pu p)
    ∧ ((∀ p, pu p ≠ [] → lo ≤ p ∧ p < hi) →
        ∀ p, pu' p ≠ [] → lo ≤ p ∧ p < hi) := by
  have hpres := poolEventsAux_preserves lo hi path events
    (List.range events.length) pu pu' h
  refine ⟨hpres, fun hkeys p hne => ?_⟩
  by_cases hb : lo ≤ p ∧ p < hi
  · exact hb
  · rw [hpres p hb] at hne
    exact hkeys p hne

/-- Witness for `pileup_keys_within_bounds`: pooling one event at
position `2` with bounds `[1, 3)` leaves position `0` untouched. -/
theorem pileup_keys_within_bounds_witness :
    push_back emptyPileup 2 7 0 = emptyPileup 0 :=
  (pileup_keys_within_bounds 1 3 [HmmState.pos 2 StateKind.I] [7] emptyPileup
    (push_back emptyPileup 2 7) rfl).1 0 (by decide)

/-!
Embedding of the per-position mixture-fit loop and the output records
(`src/Osiris_train.cpp`, lines 110–114 and 278–305).
-/

/-- One 9-field output record (`Osiris_train.cpp`, line 303): the
5-mer at the pooled reference position, the ONT reference mean and
standard deviation (`mu1`, `stdv1`), then the six fitted mixture
parameters `fitParameters[0]`…`[5]`, written in this order with no unit
conversion. -/
structure FitRow where
  fiveMer : List Char
  mu1 : ℝ
  stdv1 : ℝ
  fitParameters : List ℝ

/-- The per-position fit loop (`Osiris_train.cpp`, lines 280–305) over
the event pool (a `std::map`, iterated in key order, modelled as its
entry list), given the pore-model table `FiveMer_model` and the Penthus
EM fitter `gaussianMixtureEM` (outside these sources; its only failure
mode at this call site is the `NegativeLog` exception, modelled as the
`Except` error).  Per pooled position: look up the ONT distribution of
the reference 5-mer at that position, seed a second component at
`mu1 + 1.0` with the same standard deviation, run the fitter with
tolerance `0.0001`; on `NegativeLog` the `catch` prints a message and
`continue`s — no row for that position — otherwise one row is
written. -/
noncomputable def trainFitLoop (FiveMer_model : List Char → ℝ × ℝ)
    (gaussianMixtureEM : ℝ → ℝ → ℝ → ℝ → List ℝ → ℝ → Except Unit (List ℝ))
    (reference : List Char) : List (ℕ × List ℝ) → List FitRow
  | [] => []
  | (p, events) :: rest =>
    let fiveMer := (reference.drop p).take 5
    let mu1 := (FiveMer_model fiveMer).1
    let stdv1 := (FiveMer_model fiveMer).2
    let mu2 := mu1 + 1
    let stdv2 := stdv1
    match gaussianMixtureEM mu1 stdv1 mu2 stdv2 events 0.0001 with
    | .error _ => trainFitLoop FiveMer_model gaussianMixtureEM reference rest
    | .ok fitParameters =>
        ⟨fiveMer, mu1, stdv1, fitParameters⟩ ::
          trainFitLoop FiveMer_model gaussianMixtureEM reference rest

/-- Claim C6: a position whose EM fit raises `NegativeLog` contributes
no output row at all and the loop continues with the next position,
while every position whose fit succeeds contributes exactly one row:
the output is exactly the list of rows of the successful positions, in
order, and its length is the number of successful fits. -/
theorem fit_loop_skips_degenerate (FiveMer_model : List Char → ℝ × ℝ)
    (gaussianMixtureEM : ℝ → ℝ → ℝ → ℝ → List ℝ → ℝ → Except Unit (List ℝ))
    (reference : List Char) (pileup : List (ℕ × List ℝ)) :
    trainFitLoop FiveMer_model gaussianMixtureEM reference pileup =
      pileup.filterMap (fun pe =>
        match gaussianMixtureEM (FiveMer_model ((reference.drop pe.1).take 5)).1
            (FiveMer_model ((reference.drop pe.1).take 5)).2
            ((FiveMer_model ((reference.drop pe.1).take 5)).1 + 1)
            (FiveMer_model ((reference.drop pe.1).take 5)).2 pe.2 0.0001 with
        | .error _ => none
        | .ok fitParameters =>
            some ⟨(reference.drop pe.1).take 5,
              (FiveMer_model ((reference.drop pe.1).take 5)).1,
              (FiveMer_model ((reference.drop pe.1).take 5)).2, fitParameters⟩)
    ∧ (trainFitLoop FiveMer_model gaussianMixtureEM reference pileup).length =
        pileup.countP (fun pe =>
          (gaussianMixtureEM (FiveMer_model ((reference.drop pe.1).take 5)).1
            (FiveMer_model ((reference.drop pe.1).take 5)).2
            ((FiveMer_model ((reference.drop pe.1).take 5)).1 + 1)
            (FiveMer_model ((reference.drop pe.1).take 5)).2 pe.2 0.0001).isOk) := by
  induction pileup with
  | nil => exact ⟨rfl, rfl⟩
  | cons pe rest ih =>
    obtain ⟨p, events⟩ := pe
    obtain ⟨ih1, ih2⟩ := ih
    cases hfit : gaussianMixtureEM (FiveMer_model ((reference.drop p).take 5)).1
        (FiveMer_model ((reference.drop p).take 5)).2
        ((FiveMer_model ((reference.drop p).take 5)).1 + 1)
        (FiveMer_model ((reference.drop p).take 5)).2 events 0.0001 with
    | error e =>
      constructor
      · simp only [trainFitLoop, hfit, List.filterMap_cons, ih1]
      · simp only [trainFitLoop, hfit, ih2, List.countP_cons]
        simp [Except.isOk, Except.toBool]
    | ok fp =>
      constructor
      · simp only [trainFitLoop, hfit, List.filterMap_cons, ih1]
      · simp only [trainFitLoop, hfit, List.length_cons, ih2, List.countP_cons]
        simp [Except.isOk, Except.toBool]

/-- The header row of the trained-model output file
(`Osiris_train.cpp`, line 114), exactly as the code prints it, in
column order. -/
def outHeader : List String :=
  ["5mer", "ONT_mean", "ONT_stdv", "pi_1", "mean_1", "stdv_2", "pi_2",
    "mean_1", "stdv_2"]

/-- Claim C7 (code bug in the header): the data row of
`Osiris_train.cpp`, line 303, is written in the order (5-mer, ONT mean,
ONT std-dev, weight 1, mean 1, std-dev 1, weight 2, mean 2, std-dev 2),
but the header printed at line 114 does not name the columns in this
order: the label of column 6 duplicates that of column 9 (`"stdv_2"`)
and the label of column 8 duplicates that of column 5 (`"mean_1"`), so
the header differs from the record-order labelling. -/
theorem out_header_mislabelled :
    outHeader.length = 9
    ∧ outHeader.getD 5 "" = "stdv_2"
    ∧ outHeader.getD 7 "" = "mean_1"
    ∧ outHeader.getD 4 "" = outHeader.getD 7 ""
    ∧ outHeader.getD 5 "" = outHeader.getD 8 ""
    ∧ outHeader ≠ ["5mer", "ONT_mean", "ONT_stdv", "pi_1", "mean_1", "stdv_1",
        "pi_2", "mean_2", "stdv_2"] := by
  refine ⟨rfl, rfl, rfl, rfl, rfl, ?_⟩
  decide
